import Mathlib

/-!
Shallow embedding of ztunnel's connection lifecycle core:
`src/proxy/connection_manager.rs` (ConnectionDrain, ConnectionManager,
PolicyWatcher) and the inbound plaintext data path
`src/proxy/inbound_passthrough.rs` (InboundPassthrough::proxy_inbound_plaintext).

Modelling decisions:
- `ProxyRbacContext` (the registry key) is abstracted to `Nat`; the code only
  needs value equality and hashing on it.
- A `drain::channel()` pair `(tx, rx)` is modelled by a channel identity
  (a `Nat`): `tx` is the identity held by the signaler half, `rx` the identity
  held by the retained watcher half; `drain::channel()` returns both halves of
  one fresh channel, so `ConnectionDrain::new` sets both to the same fresh id.
  Cloning a watcher (`rx.clone()`) yields the same channel identity.
- The `HashMap<ProxyRbacContext, ConnectionDrain>` is modelled as an
  association list with at most one binding per key (the map invariant);
  `findEntry` is lookup, `removeKey` is `remove`/`remove_entry`, and
  `bumpCount` is `entry(..).and_modify(|cd| cd.count += 1)`.
- Effects that the code performs besides updating the registry (dropping the
  retained rx, awaiting the signaler's drain, the `error!` log in `close`, the
  `info!` log in the policy watcher) are recorded as an explicit event trace.
-/

namespace Ztunnel

/-- Registry key: `ProxyRbacContext`, abstracted to its value identity. -/
abbrev ProxyRbacContext := Nat

/-- `struct ConnectionDrain { tx: drain::Signal, rx: drain::Watch, count: usize }`.
`tx` and `rx` carry the identity of the drain channel half they hold. -/
structure ConnectionDrain where
  tx : Nat
  rx : Nat
  count : Nat
deriving DecidableEq, Repr

/-- `ConnectionDrain::new()`: `let (tx, rx) = drain::channel();
ConnectionDrain { tx, rx, count: 0 }` — both halves of one fresh channel. -/
def ConnectionDrain.new (chan : Nat) : ConnectionDrain :=
  { tx := chan, rx := chan, count := 0 }

/-- Observable events emitted by the modelled operations. -/
inductive Event where
  /-- `drop(self.rx)` inside `ConnectionDrain::drain`. -/
  | dropRx (chan : Nat)
  /-- `self.tx.drain().await` inside `ConnectionDrain::drain`. -/
  | awaitSignal (chan : Nat)
  /-- `info!("connection {conn} closed because it's no longer allowed after a policy update")`. -/
  | infoClosed (c : ProxyRbacContext)
  /-- `error!("requested drain on a Connection which wasn't initialized")`. -/
  | errorUninit (c : ProxyRbacContext)
deriving DecidableEq, Repr

/-- `ConnectionDrain::drain`: `drop(self.rx); self.tx.drain().await`.
The event list records the two effects in program order. -/
def ConnectionDrain.drainEvents (cd : ConnectionDrain) : List Event :=
  [Event.dropRx cd.rx, Event.awaitSignal cd.tx]

/-- One binding of the registry map. -/
abbrev EntryBinding := ProxyRbacContext × ConnectionDrain

/-- `HashMap` lookup on the association-list model (first binding wins). -/
def findEntry (c : ProxyRbacContext) : List EntryBinding → Option ConnectionDrain
  | [] => none
  | (k, v) :: rest => if k = c then some v else findEntry c rest

/-- `HashMap::remove` / `remove_entry` on the association-list model. -/
def removeKey (c : ProxyRbacContext) : List EntryBinding → List EntryBinding
  | [] => []
  | (k, v) :: rest => if k = c then removeKey c rest else (k, v) :: removeKey c rest

/-- `entry(c).and_modify(|cd| cd.count += 1)` on the association-list model. -/
def bumpCount (c : ProxyRbacContext) : List EntryBinding → List EntryBinding
  | [] => []
  | (k, v) :: rest =>
    if k = c then (k, { v with count := v.count + 1 }) :: bumpCount c rest
    else (k, v) :: bumpCount c rest

/-- `pub struct ConnectionManager { drains: Arc<RwLock<HashMap<..>>> }`,
together with an allocator of fresh channel identities for `drain::channel()`. -/
structure ConnectionManager where
  drains : List EntryBinding
  nextChan : Nat
deriving DecidableEq, Repr

/-- `ConnectionManager::default()`: an empty registry. -/
def ConnectionManager.default : ConnectionManager :=
  { drains := [], nextChan := 0 }

namespace ConnectionManager

/-- `ConnectionManager::register`:
`self.drains.write().entry(c.clone()).or_insert(ConnectionDrain::new())` —
keep the existing entry if present, otherwise insert a fresh
`ConnectionDrain` (fresh channel, count 0). -/
def register (st : ConnectionManager) (c : ProxyRbacContext) : ConnectionManager :=
  match findEntry c st.drains with
  | some _ => st
  | none =>
    { drains := st.drains ++ [(c, ConnectionDrain.new st.nextChan)]
      nextChan := st.nextChan + 1 }

/-- `ConnectionManager::track`: bump the count if the entry is occupied and
return `Some(rx.clone())`; if vacant, return `None` and insert nothing. -/
def track (st : ConnectionManager) (c : ProxyRbacContext) :
    ConnectionManager × Option Nat :=
  match findEntry c st.drains with
  | some cd => ({ st with drains := bumpCount c st.drains }, some cd.rx)
  | none => (st, none)

/-- `ConnectionManager::release`: `remove_entry`; if the removed entry's
count is > 1, re-insert it with the count decremented; otherwise leave it
removed; if no entry exists, do nothing. -/
def release (st : ConnectionManager) (c : ProxyRbacContext) : ConnectionManager :=
  match findEntry c st.drains with
  | none => st
  | some v =>
    if v.count > 1 then
      { st with drains := removeKey c st.drains ++ [(c, { v with count := v.count - 1 })] }
    else
      { st with drains := removeKey c st.drains }

/-- `ConnectionManager::close`: remove the entry; if one was present, drain it
(`cd.drain().await`); otherwise emit the error-level log event. Returns the
new registry state and the trace of effects. -/
def close (st : ConnectionManager) (c : ProxyRbacContext) :
    ConnectionManager × List Event :=
  match findEntry c st.drains with
  | some cd => ({ st with drains := removeKey c st.drains }, cd.drainEvents)
  | none => (st, [Event.errorUninit c])

/-- `ConnectionManager::connections`: the keys currently in the registry. -/
def connections (st : ConnectionManager) : List ProxyRbacContext :=
  st.drains.map Prod.fst

end ConnectionManager

/-- One step of the policy-changed arm of `PolicyWatcher::run`:
`if !self.state.assert_rbac(&conn).await { self.connection_manager.close(&conn).await; info!(..) }`.
The accumulator carries the registry state and the event trace so far. -/
def policyStep (rbac : ProxyRbacContext → Bool)
    (acc : ConnectionManager × List Event) (conn : ProxyRbacContext) :
    ConnectionManager × List Event :=
  if rbac conn then acc
  else
    let res := acc.1.close conn
    (res.1, acc.2 ++ res.2 ++ [Event.infoClosed conn])

/-- One iteration of `PolicyWatcher::run` for a `policies_changed` event:
snapshot `connections()`, then sequentially evaluate `assert_rbac` on each
context (modelled as the pure predicate `rbac`, the policy being fixed during
the iteration), closing each denied context with an awaited `close` and an
informational event, before returning to the select loop. -/
def policyIteration (rbac : ProxyRbacContext → Bool) (st : ConnectionManager) :
    ConnectionManager × List Event :=
  (st.connections).foldl (policyStep rbac) (st, [])

/-! ### Operation sequences on a single key (for the refcount invariant) -/

/-- The four registry operations a connection-bearing task or the policy
watcher can apply to a key. -/
inductive Op where
  | register
  | track
  | release
  | close
deriving DecidableEq, Repr

/-- Apply one operation to the registry at key `c`, keeping only the
registry state (the returned watcher and the drain events are dropped). -/
def applyOp (c : ProxyRbacContext) (st : ConnectionManager) : Op → ConnectionManager
  | Op.register => st.register c
  | Op.track => (st.track c).1
  | Op.release => st.release c
  | Op.close => (st.close c).1

/-- Run a sequence of operations on key `c`, starting from the empty
registry. -/
def runOps (c : ProxyRbacContext) (ops : List Op) : ConnectionManager :=
  ops.foldl (applyOp c) ConnectionManager.default

/-- Modelled from the spec: the ghost bookkeeping of the refcount claim.
`some (t, r)` means an entry is currently present, created by a `register`,
where `t` counts the `track` calls that returned Some and `r` the `release`
calls applied to this entry since the `register` that created it; `none`
means no entry is present. The entry is removed by a `close` or by a
`release` that found its count (that is, `t - r`) at most 1. -/
def specGhostStep : Option (Nat × Nat) → Op → Option (Nat × Nat)
  | none, Op.register => some (0, 0)
  | some g, Op.register => some g
  | some (t, r), Op.track => some (t + 1, r)
  | none, Op.track => none
  | some (t, r), Op.release => if t - r ≤ 1 then none else some (t, r + 1)
  | none, Op.release => none
  | _, Op.close => none

/-- Modelled from the spec: run the ghost bookkeeping over a sequence of
operations, starting with no entry. -/
def specGhostRun (ops : List Op) : Option (Nat × Nat) :=
  ops.foldl specGhostStep none

/-- The single-key view of the registry: the count of the entry at `c`,
if present. -/
def countView (st : ConnectionManager) (c : ProxyRbacContext) : Option Nat :=
  (findEntry c st.drains).map ConnectionDrain.count

/-- The count the ghost state predicts: successful tracks minus releases. -/
def ghostView (g : Option (Nat × Nat)) : Option Nat :=
  g.map (fun p => p.1 - p.2)

/-- Well-formedness of the ghost state: releases never exceed successful
tracks. Every `specGhostStep` preserves it from the initial (absent) state. -/
def ghostOk : Option (Nat × Nat) → Prop
  | none => True
  | some p => p.2 ≤ p.1

/-! ### The inbound plaintext data path (`InboundPassthrough::proxy_inbound_plaintext`) -/

/-- `crate::config::ProxyMode` (the variants the data path distinguishes). -/
inductive ProxyMode where
  | Shared
  | Dedicated
deriving DecidableEq, Repr

/-- The configuration fields `proxy_inbound_plaintext` reads. IP addresses
are abstracted to `Nat`. -/
structure ProxyCfg where
  proxy_mode : ProxyMode
  local_ip : Option Nat
deriving DecidableEq, Repr

/-- The reason passed to `metrics::log_early_deny`. -/
inductive EarlyDeny where
  | SelfCall
  | UnknownDestination (ip : Nat)
deriving DecidableEq, Repr

/-- The `proxy::Error` values `proxy_inbound_plaintext` records via
`result_tracker.record`. -/
inductive ConnError where
  | AuthorizationPolicyRejection
  | AuthorizationPolicyLateRejection
  | ConnectionFailed
deriving DecidableEq, Repr

/-- What one run of `proxy_inbound_plaintext` did: the final registry state,
the early deny (if any), the result recorded on the `result_tracker`
(`none` = never recorded; `some none` = `Ok`; `some (some e)` = `Err(e)`),
and whether `register`/`release`/the relay were reached. -/
structure InboundOutcome where
  cm : ConnectionManager
  earlyDeny : Option EarlyDeny
  recorded : Option (Option ConnError)
  registerCalled : Bool
  releaseCalled : Bool
  relayed : Bool
deriving DecidableEq, Repr

/-- `InboundPassthrough::proxy_inbound_plaintext`, sequentialized.
Oracles stand for the awaited collaborators: `workloadFound` for
`fetch_workload_services` returning Some, `rbacPass` for `assert_rbac`,
`closeRacesTrack` for a concurrent `close(c)` committed between the
admission check and `track` (the interleaving the code's comment calls out:
"could occur if policy changes while track awaits lock"), `watcherFired`
for the close watcher winning the final select, and `sendOk` for the
relay's outcome. `c` is the `ProxyRbacContext` built for the connection. -/
def proxyInboundPlaintext (cfg : ProxyCfg) (destIp : Nat)
    (workloadFound : Bool) (rbacPass : Bool) (c : ProxyRbacContext)
    (closeRacesTrack : Bool) (watcherFired : Bool) (sendOk : Bool)
    (st : ConnectionManager) : InboundOutcome :=
  if cfg.proxy_mode = ProxyMode.Shared ∧ some destIp = cfg.local_ip then
    { cm := st, earlyDeny := some EarlyDeny.SelfCall, recorded := none
      registerCalled := false, releaseCalled := false, relayed := false }
  else if ¬ workloadFound then
    { cm := st, earlyDeny := some (EarlyDeny.UnknownDestination destIp), recorded := none
      registerCalled := false, releaseCalled := false, relayed := false }
  else
    let st1 := st.register c
    if ¬ rbacPass then
      { cm := st1.release c, earlyDeny := none
        recorded := some (some ConnError.AuthorizationPolicyRejection)
        registerCalled := true, releaseCalled := true, relayed := false }
    else
      let st2 := if closeRacesTrack then (st1.close c).1 else st1
      match st2.track c with
      | (st3, none) =>
        { cm := st3, earlyDeny := none
          recorded := some (some ConnError.AuthorizationPolicyRejection)
          registerCalled := true, releaseCalled := false, relayed := false }
      | (st3, some _w) =>
        if watcherFired then
          { cm := st3, earlyDeny := none
            recorded := some (some ConnError.AuthorizationPolicyLateRejection)
            registerCalled := true, releaseCalled := false, relayed := false }
        else
          { cm := st3.release c, earlyDeny := none
            recorded := some (if sendOk then none else some ConnError.ConnectionFailed)
            registerCalled := true, releaseCalled := true, relayed := true }

/-! ### Association-list lemmas -/

theorem findEntry_removeKey_self (c : ProxyRbacContext) (l : List EntryBinding) :
    findEntry c (removeKey c l) = none := by
  induction l with
  | nil => rfl
  | cons p rest ih =>
    obtain ⟨k, v⟩ := p
    by_cases hk : k = c <;> simp [removeKey, findEntry, hk, ih]

theorem findEntry_removeKey_other (c k : ProxyRbacContext) (l : List EntryBinding)
    (hne : k ≠ c) : findEntry k (removeKey c l) = findEntry k l := by
  induction l with
  | nil => rfl
  | cons p rest ih =>
    obtain ⟨k', v⟩ := p
    by_cases h1 : k' = c
    · subst h1
      simp [removeKey, findEntry, Ne.symm hne, ih]
    · by_cases h2 : k' = k <;> simp [removeKey, findEntry, h1, h2, hne, ih]

theorem findEntry_bumpCount_self (c : ProxyRbacContext) (l : List EntryBinding) :
    findEntry c (bumpCount c l) =
      (findEntry c l).map (fun v => { v with count := v.count + 1 }) := by
  induction l with
  | nil => rfl
  | cons p rest ih =>
    obtain ⟨k, v⟩ := p
    by_cases hk : k = c <;> simp [bumpCount, findEntry, hk, ih]

theorem findEntry_bumpCount_other (c k : ProxyRbacContext) (l : List EntryBinding)
    (hne : k ≠ c) : findEntry k (bumpCount c l) = findEntry k l := by
  induction l with
  | nil => rfl
  | cons p rest ih =>
    obtain ⟨k', v⟩ := p
    by_cases h1 : k' = c
    · subst h1
      simp [bumpCount, findEntry, Ne.symm hne, ih]
    · by_cases h2 : k' = k <;> simp [bumpCount, findEntry, h1, h2, hne, ih]

theorem findEntry_append (c : ProxyRbacContext) (l1 l2 : List EntryBinding) :
    findEntry c (l1 ++ l2) =
      match findEntry c l1 with
      | some v => some v
      | none => findEntry c l2 := by
  induction l1 with
  | nil => rfl
  | cons p rest ih =>
    obtain ⟨k, v⟩ := p
    by_cases hk : k = c <;> simp [findEntry, hk, ih]

theorem findEntry_append_self (c : ProxyRbacContext) (l : List EntryBinding)
    (v : ConnectionDrain) (h : findEntry c l = none) :
    findEntry c (l ++ [(c, v)]) = some v := by
  rw [findEntry_append, h]
  simp [findEntry]

theorem findEntry_append_other (c k : ProxyRbacContext) (l : List EntryBinding)
    (v : ConnectionDrain) (hne : k ≠ c) :
    findEntry k (l ++ [(c, v)]) = findEntry k l := by
  rw [findEntry_append]
  cases h : findEntry k l <;> simp [findEntry, Ne.symm hne]

/-! ### Claim theorems -/

/-- C2: if an entry for `ctx` is present, `track(ctx)` increments that entry's
refcount by exactly one and returns Some holding a clone of the entry's
retained watcher (same channel); other keys and the channel allocator are
untouched. If no entry is present, `track(ctx)` returns None and leaves the
registry unchanged — in particular it does not insert a new entry. -/
theorem C2_track_increments_or_rejects (st : ConnectionManager) (c : ProxyRbacContext) :
    (∀ v, findEntry c st.drains = some v →
      (st.track c).2 = some v.rx ∧
      findEntry c (st.track c).1.drains = some { v with count := v.count + 1 } ∧
      (∀ k, k ≠ c → findEntry k (st.track c).1.drains = findEntry k st.drains) ∧
      (st.track c).1.nextChan = st.nextChan) ∧
    (findEntry c st.drains = none → st.track c = (st, none)) := by
  constructor
  · intro v hv
    refine ⟨by simp [ConnectionManager.track, hv], ?_, ?_, by simp [ConnectionManager.track, hv]⟩
    · simp [ConnectionManager.track, hv, findEntry_bumpCount_self]
    · intro k hk
      simp [ConnectionManager.track, hv, findEntry_bumpCount_other c k st.drains hk]
  · intro hv
    simp [ConnectionManager.track, hv]

/-- Witness for C2 at a concrete registry with one entry of count 2. -/
theorem C2_track_increments_or_rejects_witness :
    (ConnectionManager.track ⟨[(0, ⟨5, 5, 2⟩)], 6⟩ 0).2 = some 5 ∧
    findEntry 0 (ConnectionManager.track ⟨[(0, ⟨5, 5, 2⟩)], 6⟩ 0).1.drains = some ⟨5, 5, 3⟩ := by
  have h := (C2_track_increments_or_rejects ⟨[(0, ⟨5, 5, 2⟩)], 6⟩ 0).1 ⟨5, 5, 2⟩ rfl
  exact ⟨h.1, h.2.1⟩

/-- C3: `release(ctx)` on a present entry with refcount > 1 keeps the entry
with refcount decremented by one; on a present entry with refcount ≤ 1 it
removes the entry; on an absent key it does nothing. Consequently, starting
from a registry with no entry for `ctx`, `register(ctx)` immediately
followed by `release(ctx)` with no intervening `track` leaves no entry for
`ctx` (the created entry has refcount 0 ≤ 1). -/
theorem C3_release_decrements_or_removes (st : ConnectionManager) (c : ProxyRbacContext) :
    (∀ v, findEntry c st.drains = some v → v.count > 1 →
      findEntry c (st.release c).drains = some { v with count := v.count - 1 }) ∧
    (∀ v, findEntry c st.drains = some v → v.count ≤ 1 →
      findEntry c (st.release c).drains = none) ∧
    (findEntry c st.drains = none → st.release c = st) ∧
    (findEntry c st.drains = none →
      findEntry c ((st.register c).release c).drains = none) := by
  refine ⟨?_, ?_, ?_, ?_⟩
  · intro v hv hc
    simp only [ConnectionManager.release, hv, if_pos hc]
    exact findEntry_append_self c _ _ (findEntry_removeKey_self c st.drains)
  · intro v hv hc
    simp only [ConnectionManager.release, hv, if_neg (by omega : ¬ v.count > 1)]
    exact findEntry_removeKey_self c st.drains
  · intro hv
    simp [ConnectionManager.release, hv]
  · intro hv
    have hreg : findEntry c (st.register c).drains = some (ConnectionDrain.new st.nextChan) := by
      simp only [ConnectionManager.register, hv]
      exact findEntry_append_self c st.drains _ hv
    simp only [ConnectionManager.release, hreg, ConnectionDrain.new]
    simp only [show ¬ (0 : Nat) > 1 by omega, if_false]
    exact findEntry_removeKey_self c _

/-- Witness for C3: a register-then-release pair on a fresh key leaves the
registry without an entry, and a count-3 entry is decremented to 2. -/
theorem C3_release_decrements_or_removes_witness :
    findEntry 0 ((ConnectionManager.default.register 0).release 0).drains = none ∧
    findEntry 1 (ConnectionManager.release ⟨[(1, ⟨4, 4, 3⟩)], 5⟩ 1).drains = some ⟨4, 4, 2⟩ := by
  refine ⟨(C3_release_decrements_or_removes ConnectionManager.default 0).2.2.2 rfl, ?_⟩
  exact (C3_release_decrements_or_removes ⟨[(1, ⟨4, 4, 3⟩)], 5⟩ 1).1 ⟨4, 4, 3⟩ rfl (by decide)

/-- C5: `close(ctx)` on a present entry removes it from the registry, drops
the entry's retained watcher and awaits the signaler's drain (the two drain
effects, in order), leaving other keys untouched; on an absent key it emits
the error-level log event and returns normally with the registry unchanged. -/
theorem C5_close_drains_or_logs (st : ConnectionManager) (c : ProxyRbacContext) :
    (∀ cd, findEntry c st.drains = some cd →
      (st.close c).2 = [Event.dropRx cd.rx, Event.awaitSignal cd.tx] ∧
      findEntry c (st.close c).1.drains = none ∧
      (∀ k, k ≠ c → findEntry k (st.close c).1.drains = findEntry k st.drains)) ∧
    (findEntry c st.drains = none →
      (st.close c).1 = st ∧ (st.close c).2 = [Event.errorUninit c]) := by
  constructor
  · intro cd hcd
    refine ⟨by simp [ConnectionManager.close, hcd, ConnectionDrain.drainEvents], ?_, ?_⟩
    · simp [ConnectionManager.close, hcd, findEntry_removeKey_self]
    · intro k hk
      simp [ConnectionManager.close, hcd, findEntry_removeKey_other c k st.drains hk]
  · intro hv
    simp [ConnectionManager.close, hv]

/-- Witness for C5: closing a present entry and closing an absent key. -/
theorem C5_close_drains_or_logs_witness :
    (ConnectionManager.close ⟨[(0, ⟨7, 7, 1⟩)], 8⟩ 0).2 =
      [Event.dropRx 7, Event.awaitSignal 7] ∧
    (ConnectionManager.default.close 3).2 = [Event.errorUninit 3] := by
  exact ⟨((C5_close_drains_or_logs ⟨[(0, ⟨7, 7, 1⟩)], 8⟩ 0).1 ⟨7, 7, 1⟩ rfl).1,
    ((C5_close_drains_or_logs ConnectionManager.default 3).2 rfl).2⟩

/-- C7: on the (only) drain path of `close` — a present entry — the retained
watcher `rx` is dropped strictly before the signaler's drain is awaited: in
the emitted effect trace, any occurrence of the await effect is preceded by
the drop effect. -/
theorem C7_rx_dropped_before_drain (st : ConnectionManager) (c : ProxyRbacContext)
    (cd : ConnectionDrain) (h : findEntry c st.drains = some cd) :
    ∀ pre post, (st.close c).2 = pre ++ Event.awaitSignal cd.tx :: post →
      Event.dropRx cd.rx ∈ pre := by
  intro pre post hsplit
  have hev : (st.close c).2 = [Event.dropRx cd.rx, Event.awaitSignal cd.tx] := by
    simp [ConnectionManager.close, h, ConnectionDrain.drainEvents]
  rw [hev] at hsplit
  rcases pre with _ | ⟨a, _ | ⟨b, pre⟩⟩ <;> simp_all

/-- Witness for C7 at a concrete entry: the close trace splits before its
await effect, and the drop effect sits in the prefix. -/
theorem C7_rx_dropped_before_drain_witness :
    (ConnectionManager.close ⟨[(0, ⟨7, 7, 1⟩)], 8⟩ 0).2 =
      [Event.dropRx 7] ++ Event.awaitSignal 7 :: [] ∧
    Event.dropRx 7 ∈ [Event.dropRx 7] := by
  exact ⟨rfl, C7_rx_dropped_before_drain ⟨[(0, ⟨7, 7, 1⟩)], 8⟩ 0 ⟨7, 7, 1⟩ rfl
    [Event.dropRx 7] [] rfl⟩

/-- C8: `register` is idempotent — with an entry already present the whole
state (registry and channel allocator) is left exactly as it was, so the
existing entry, its refcount and its channel are kept and no new channel
identity is consumed; with no entry present a fresh entry with refcount 0
and a fresh channel is inserted. -/
theorem C8_register_idempotent (st : ConnectionManager) (c : ProxyRbacContext) :
    (∀ v, findEntry c st.drains = some v → st.register c = st) ∧
    (findEntry c st.drains = none →
      (st.register c).drains = st.drains ++ [(c, ConnectionDrain.new st.nextChan)] ∧
      findEntry c (st.register c).drains = some ⟨st.nextChan, st.nextChan, 0⟩) := by
  constructor
  · intro v hv
    simp [ConnectionManager.register, hv]
  · intro hv
    refine ⟨by simp [ConnectionManager.register, hv], ?_⟩
    simp only [ConnectionManager.register, hv]
    exact findEntry_append_self c st.drains _ hv

/-- Witness for C8: double register on a fresh key is a no-op the second
time, and the first register created the count-0 entry. -/
theorem C8_register_idempotent_witness :
    (ConnectionManager.default.register 0).register 0 = ConnectionManager.default.register 0 ∧
    findEntry 0 (ConnectionManager.default.register 0).drains = some ⟨0, 0, 0⟩ := by
  refine ⟨(C8_register_idempotent (ConnectionManager.default.register 0) 0).1 ⟨0, 0, 0⟩ ?_, ?_⟩
  · exact ((C8_register_idempotent ConnectionManager.default 0).2 rfl).2
  · exact ((C8_register_idempotent ConnectionManager.default 0).2 rfl).2

/-- C10: when `release(ctx)` finds an entry with refcount > 1, the same
`ConnectionDrain` is re-inserted under the same key with only its count
decremented: the signaler `tx` and the retained watcher `rx` are unchanged;
hence any watcher previously returned by `track(ctx)` is still the entry's
channel, and a later `close(ctx)` drains exactly that channel. -/
theorem C10_release_retains_channel (st : ConnectionManager) (c : ProxyRbacContext)
    (v : ConnectionDrain) (hv : findEntry c st.drains = some v) (hc : v.count > 1) :
    findEntry c (st.release c).drains = some ⟨v.tx, v.rx, v.count - 1⟩ ∧
    (∀ w, (st.track c).2 = some w →
      (findEntry c (st.release c).drains).map ConnectionDrain.rx = some w) ∧
    ((st.release c).close c).2 = [Event.dropRx v.rx, Event.awaitSignal v.tx] := by
  have hrel : findEntry c (st.release c).drains = some ⟨v.tx, v.rx, v.count - 1⟩ := by
    simp only [ConnectionManager.release, hv, if_pos hc]
    exact findEntry_append_self c _ _ (findEntry_removeKey_self c st.drains)
  refine ⟨hrel, ?_, ?_⟩
  · intro w hw
    have : w = v.rx := by
      simp only [ConnectionManager.track, hv] at hw
      exact (Option.some_inj.mp hw).symm
    rw [hrel, this]
    rfl
  · simp [ConnectionManager.close, hrel, ConnectionDrain.drainEvents]

/-- Witness for C10 at a count-2 entry on channel 9. -/
theorem C10_release_retains_channel_witness :
    findEntry 4 (ConnectionManager.release ⟨[(4, ⟨9, 9, 2⟩)], 10⟩ 4).drains = some ⟨9, 9, 1⟩ ∧
    ((ConnectionManager.release ⟨[(4, ⟨9, 9, 2⟩)], 10⟩ 4).close 4).2 =
      [Event.dropRx 9, Event.awaitSignal 9] := by
  have h := C10_release_retains_channel ⟨[(4, ⟨9, 9, 2⟩)], 10⟩ 4 ⟨9, 9, 2⟩ rfl (by decide)
  exact ⟨h.1, h.2.2⟩

/-- C9: in shared proxy mode, when the derived destination IP equals the
configured local proxy IP, `proxy_inbound_plaintext` records the self-call
early deny and returns before `register` is ever called: the registry is
returned completely unchanged, no result is recorded on the tracker, and
neither release nor the relay is reached. -/
theorem C9_selfcall_rejected_before_register (cfg : ProxyCfg) (destIp : Nat)
    (workloadFound rbacPass : Bool) (c : ProxyRbacContext)
    (closeRacesTrack watcherFired sendOk : Bool) (st : ConnectionManager)
    (hmode : cfg.proxy_mode = ProxyMode.Shared) (hip : cfg.local_ip = some destIp) :
    proxyInboundPlaintext cfg destIp workloadFound rbacPass c closeRacesTrack
        watcherFired sendOk st =
      { cm := st, earlyDeny := some EarlyDeny.SelfCall, recorded := none
        registerCalled := false, releaseCalled := false, relayed := false } := by
  simp [proxyInboundPlaintext, hmode, hip]

/-- Witness for C9 at a concrete shared-mode configuration and a nonempty
registry. -/
theorem C9_selfcall_rejected_before_register_witness :
    proxyInboundPlaintext ⟨ProxyMode.Shared, some 9⟩ 9 true true 0 false false true
        ⟨[(1, ⟨2, 2, 1⟩)], 3⟩ =
      { cm := ⟨[(1, ⟨2, 2, 1⟩)], 3⟩, earlyDeny := some EarlyDeny.SelfCall, recorded := none
        registerCalled := false, releaseCalled := false, relayed := false } := by
  exact C9_selfcall_rejected_before_register ⟨ProxyMode.Shared, some 9⟩ 9 true true 0
    false false true ⟨[(1, ⟨2, 2, 1⟩)], 3⟩ rfl rfl

/-- C4 counterexample: a concrete run in which `track` returns none (a
concurrent `close` removed the entry between the admission check and
`track`), yet the recorded connection result is
`Error::AuthorizationPolicyRejection` — not the "authorization policy late
rejection" the claim states. (`AuthorizationPolicyLateRejection` is recorded
only when the watcher fires during the relay.) -/
theorem C4_counterexample_track_none_not_late :
    (ConnectionManager.track
        ((ConnectionManager.register ConnectionManager.default 0).close 0).1 0).2 = none ∧
    (proxyInboundPlaintext ⟨ProxyMode.Dedicated, none⟩ 9 true true 0 true false false
        ConnectionManager.default).recorded =
      some (some ConnError.AuthorizationPolicyRejection) ∧
    (proxyInboundPlaintext ⟨ProxyMode.Dedicated, none⟩ 9 true true 0 true false false
        ConnectionManager.default).recorded ≠
      some (some ConnError.AuthorizationPolicyLateRejection) := by
  decide

/-- C4 (amended): whenever `track(ctx)` returns none in the
proxied-connection task, the task records the connection result error
`Error::AuthorizationPolicyRejection` (the plain "authorization policy
rejection", the same error value as an admission denial — not the "late
rejection" variant, which is reserved for a watcher firing during relay)
and returns without relaying any data and without calling release. -/
theorem C4_track_none_records_policy_rejection (cfg : ProxyCfg) (destIp : Nat)
    (c : ProxyRbacContext) (watcherFired sendOk : Bool) (st : ConnectionManager)
    (hguard : ¬ (cfg.proxy_mode = ProxyMode.Shared ∧ some destIp = cfg.local_ip)) :
    (ConnectionManager.track ((st.register c).close c).1 c).2 = none ∧
    (proxyInboundPlaintext cfg destIp true true c true watcherFired sendOk st).recorded =
      some (some ConnError.AuthorizationPolicyRejection) ∧
    (proxyInboundPlaintext cfg destIp true true c true watcherFired sendOk st).releaseCalled
      = false ∧
    (proxyInboundPlaintext cfg destIp true true c true watcherFired sendOk st).relayed
      = false := by
  have hclosed : findEntry c ((st.register c).close c).1.drains = none := by
    cases hreg : findEntry c (st.register c).drains with
    | some cd => simp [ConnectionManager.close, hreg, findEntry_removeKey_self]
    | none => simp [ConnectionManager.close, hreg]
  have htrack : (ConnectionManager.track ((st.register c).close c).1 c) =
      (((st.register c).close c).1, none) := by
    simp [ConnectionManager.track, hclosed]
  refine ⟨by rw [htrack], ?_⟩
  simp only [proxyInboundPlaintext, if_neg hguard]
  simp [htrack]

/-- Witness for C4 (amended) at a concrete dedicated-mode run. -/
theorem C4_track_none_records_policy_rejection_witness :
    (proxyInboundPlaintext ⟨ProxyMode.Dedicated, none⟩ 9 true true 0 true false true
        ConnectionManager.default).recorded =
      some (some ConnError.AuthorizationPolicyRejection) ∧
    (proxyInboundPlaintext ⟨ProxyMode.Dedicated, none⟩ 9 true true 0 true false true
        ConnectionManager.default).relayed = false := by
  have h := C4_track_none_records_policy_rejection ⟨ProxyMode.Dedicated, none⟩ 9 0
    false true ConnectionManager.default (by decide)
  exact ⟨h.2.1, h.2.2.2⟩

/-! ### The single-key refcount simulation (C1) -/

theorem ghostOk_step (g : Option (Nat × Nat)) (op : Op) (hg : ghostOk g) :
    ghostOk (specGhostStep g op) := by
  cases g with
  | none => cases op <;> simp [specGhostStep, ghostOk]
  | some p =>
    obtain ⟨t, r⟩ := p
    cases op with
    | register => simpa [specGhostStep, ghostOk] using hg
    | track =>
      simp [specGhostStep, ghostOk] at hg ⊢
      omega
    | release =>
      simp only [specGhostStep]
      split
      · simp [ghostOk]
      · simp [ghostOk] at hg ⊢
        omega
    | close => simp [specGhostStep, ghostOk]

theorem countView_applyOp (c : ProxyRbacContext) (st : ConnectionManager)
    (g : Option (Nat × Nat)) (op : Op)
    (hR : countView st c = ghostView g) (hg : ghostOk g) :
    countView (applyOp c st op) c = ghostView (specGhostStep g op) := by
  cases hf : findEntry c st.drains with
  | none =>
    have hgnone : g = none := by
      cases g with
      | none => rfl
      | some p => simp [countView, ghostView, hf] at hR
    subst hgnone
    cases op with
    | register =>
      have hins : findEntry c (st.register c).drains = some (ConnectionDrain.new st.nextChan) := by
        simp only [ConnectionManager.register, hf]
        exact findEntry_append_self c st.drains _ hf
      simp [applyOp, countView, ghostView, specGhostStep, hins, ConnectionDrain.new]
    | track => simp [applyOp, ConnectionManager.track, hf, countView, ghostView, specGhostStep]
    | release => simp [applyOp, ConnectionManager.release, hf, countView, ghostView, specGhostStep]
    | close => simp [applyOp, ConnectionManager.close, hf, countView, ghostView, specGhostStep]
  | some v =>
    obtain ⟨p, hgp⟩ : ∃ p, g = some p := by
      cases g with
      | none => simp [countView, ghostView, hf] at hR
      | some p => exact ⟨p, rfl⟩
    subst hgp
    obtain ⟨t, r⟩ := p
    have hcount : v.count = t - r := by
      simpa [countView, ghostView, hf] using hR
    have hrt : r ≤ t := by simpa [ghostOk] using hg
    cases op with
    | register =>
      simp [applyOp, ConnectionManager.register, hf, countView, ghostView, specGhostStep, hcount]
    | track =>
      have hbump : findEntry c (bumpCount c st.drains) =
          some { v with count := v.count + 1 } := by
        simp [findEntry_bumpCount_self, hf]
      simp [applyOp, ConnectionManager.track, hf, countView, ghostView, specGhostStep, hbump]
      omega
    | release =>
      by_cases hc : v.count > 1
      · have hrel : findEntry c (st.release c).drains =
            some { v with count := v.count - 1 } := by
          simp only [ConnectionManager.release, hf, if_pos hc]
          exact findEntry_append_self c _ _ (findEntry_removeKey_self c st.drains)
        have hgt : ¬ t - r ≤ 1 := by omega
        simp [applyOp, countView, hrel, ghostView, specGhostStep, hgt]
        omega
      · have hrel : findEntry c (st.release c).drains = none := by
          simp only [ConnectionManager.release, hf, if_neg hc]
          exact findEntry_removeKey_self c st.drains
        have hle : t - r ≤ 1 := by omega
        simp [applyOp, countView, hrel, ghostView, specGhostStep, hle]
    | close =>
      have hcl : findEntry c ((st.close c).1).drains = none := by
        simp [ConnectionManager.close, hf, findEntry_removeKey_self]
      simp [applyOp, countView, hcl, ghostView, specGhostStep]

theorem countView_runOps_aux (c : ProxyRbacContext) (ops : List Op)
    (st : ConnectionManager) (g : Option (Nat × Nat))
    (hR : countView st c = ghostView g) (hg : ghostOk g) :
    countView (ops.foldl (applyOp c) st) c = ghostView (ops.foldl specGhostStep g) := by
  induction ops generalizing st g with
  | nil => simpa using hR
  | cons op rest ih =>
    simp only [List.foldl_cons]
    exact ih _ _ (countView_applyOp c st g op hR hg) (ghostOk_step g op hg)

/-- C1: for every finite sequence of register/track/release/close operations
on a single key, starting from the empty registry, the single-key view of
the registry coincides with the ghost bookkeeping taken from the spec:
whenever an entry is present its count equals the number of track calls that
returned Some minus the number of release calls applied to that entry since
the register that created it, and the entry is present exactly when it was
created by a register and not since removed by a close or by a release that
found its count at most 1 (the ghost state is Some exactly then). -/
theorem C1_refcount_invariant (c : ProxyRbacContext) (ops : List Op) :
    countView (runOps c ops) c = ghostView (specGhostRun ops) ∧
    ((findEntry c (runOps c ops).drains).isSome ↔ (specGhostRun ops).isSome) := by
  have h : countView (runOps c ops) c = ghostView (specGhostRun ops) :=
    countView_runOps_aux c ops ConnectionManager.default none rfl (by simp [ghostOk])
  refine ⟨h, ?_⟩
  have h2 := congrArg Option.isSome h
  simpa [countView, ghostView] using h2

/-! ### Policy watcher lemmas (C6) -/

theorem findEntry_close_self (st : ConnectionManager) (conn : ProxyRbacContext) :
    findEntry conn ((st.close conn).1).drains = none := by
  unfold ConnectionManager.close
  cases h : findEntry conn st.drains with
  | some cd => simp [findEntry_removeKey_self]
  | none => simpa using h

theorem findEntry_close_other (st : ConnectionManager) (conn k : ProxyRbacContext)
    (hne : k ≠ conn) :
    findEntry k ((st.close conn).1).drains = findEntry k st.drains := by
  unfold ConnectionManager.close
  cases h : findEntry conn st.drains with
  | some cd => simp [findEntry_removeKey_other conn k _ hne]
  | none => simp

theorem infoClosed_not_in_close_events (st : ConnectionManager)
    (conn k : ProxyRbacContext) :
    Event.infoClosed k ∉ (st.close conn).2 := by
  unfold ConnectionManager.close
  cases h : findEntry conn st.drains <;> simp [ConnectionDrain.drainEvents]

theorem policy_foldl_preserves_allowed (rbac : ProxyRbacContext → Bool)
    (todo : List ProxyRbacContext) (st0 : ConnectionManager) (evs0 : List Event)
    (k : ProxyRbacContext) (hk : rbac k = true) :
    findEntry k (todo.foldl (policyStep rbac) (st0, evs0)).1.drains =
      findEntry k st0.drains := by
  induction todo generalizing st0 evs0 with
  | nil => rfl
  | cons conn rest ih =>
    simp only [List.foldl_cons]
    by_cases hc : rbac conn
    · rw [show policyStep rbac (st0, evs0) conn = (st0, evs0) by simp [policyStep, hc]]
      exact ih st0 evs0
    · have hne : k ≠ conn := by
        intro h
        rw [h] at hk
        exact hc hk
      rw [show policyStep rbac (st0, evs0) conn =
          ((st0.close conn).1, evs0 ++ (st0.close conn).2 ++ [Event.infoClosed conn]) by
        simp [policyStep, hc]]
      rw [ih _ _]
      exact findEntry_close_other st0 conn k hne

theorem policy_foldl_events_mono (rbac : ProxyRbacContext → Bool)
    (todo : List ProxyRbacContext) (st0 : ConnectionManager) (evs0 : List Event)
    (e : Event) (he : e ∈ evs0) :
    e ∈ (todo.foldl (policyStep rbac) (st0, evs0)).2 := by
  induction todo generalizing st0 evs0 with
  | nil => simpa using he
  | cons conn rest ih =>
    simp only [List.foldl_cons]
    by_cases hc : rbac conn
    · rw [show policyStep rbac (st0, evs0) conn = (st0, evs0) by simp [policyStep, hc]]
      exact ih st0 evs0 he
    · rw [show policyStep rbac (st0, evs0) conn =
          ((st0.close conn).1, evs0 ++ (st0.close conn).2 ++ [Event.infoClosed conn]) by
        simp [policyStep, hc]]
      exact ih _ _ (by simp [he])

theorem policy_foldl_absent (rbac : ProxyRbacContext → Bool)
    (todo : List ProxyRbacContext) (st0 : ConnectionManager) (evs0 : List Event)
    (k : ProxyRbacContext) (hk : findEntry k st0.drains = none) :
    findEntry k (todo.foldl (policyStep rbac) (st0, evs0)).1.drains = none := by
  induction todo generalizing st0 evs0 with
  | nil => simpa using hk
  | cons conn rest ih =>
    simp only [List.foldl_cons]
    by_cases hc : rbac conn
    · rw [show policyStep rbac (st0, evs0) conn = (st0, evs0) by simp [policyStep, hc]]
      exact ih st0 evs0 hk
    · rw [show policyStep rbac (st0, evs0) conn =
          ((st0.close conn).1, evs0 ++ (st0.close conn).2 ++ [Event.infoClosed conn]) by
        simp [policyStep, hc]]
      refine ih _ _ ?_
      by_cases hek : k = conn
      · subst hek
        exact findEntry_close_self st0 k
      · rw [findEntry_close_other st0 conn k hek]
        exact hk

theorem policy_foldl_denied (rbac : ProxyRbacContext → Bool)
    (todo : List ProxyRbacContext) (st0 : ConnectionManager) (evs0 : List Event)
    (k : ProxyRbacContext) (hk : k ∈ todo) (hrb : rbac k = false) :
    findEntry k (todo.foldl (policyStep rbac) (st0, evs0)).1.drains = none ∧
    Event.infoClosed k ∈ (todo.foldl (policyStep rbac) (st0, evs0)).2 ∧
    (∀ cd, findEntry k st0.drains = some cd →
      Event.dropRx cd.rx ∈ (todo.foldl (policyStep rbac) (st0, evs0)).2 ∧
      Event.awaitSignal cd.tx ∈ (todo.foldl (policyStep rbac) (st0, evs0)).2) := by
  induction todo generalizing st0 evs0 with
  | nil => cases hk
  | cons conn rest ih =>
    simp only [List.foldl_cons]
    by_cases hek : k = conn
    · subst hek
      have hc : ¬ rbac k := by simp [hrb]
      rw [show policyStep rbac (st0, evs0) k =
          ((st0.close k).1, evs0 ++ (st0.close k).2 ++ [Event.infoClosed k]) by
        simp [policyStep, hc]]
      refine ⟨policy_foldl_absent rbac rest _ _ k (findEntry_close_self st0 k), ?_, ?_⟩
      · exact policy_foldl_events_mono rbac rest _ _ _ (by simp)
      · intro cd hcd
        have hevs : (st0.close k).2 = [Event.dropRx cd.rx, Event.awaitSignal cd.tx] := by
          simp [ConnectionManager.close, hcd, ConnectionDrain.drainEvents]
        constructor
        · exact policy_foldl_events_mono rbac rest _ _ _ (by simp [hevs])
        · exact policy_foldl_events_mono rbac rest _ _ _ (by simp [hevs])
    · have hk' : k ∈ rest := by
        cases hk with
        | head => exact absurd rfl hek
        | tail _ h => exact h
      by_cases hc : rbac conn
      · rw [show policyStep rbac (st0, evs0) conn = (st0, evs0) by simp [policyStep, hc]]
        exact ih st0 evs0 hk'
      · rw [show policyStep rbac (st0, evs0) conn =
            ((st0.close conn).1, evs0 ++ (st0.close conn).2 ++ [Event.infoClosed conn]) by
          simp [policyStep, hc]]
        have hpres : findEntry k ((st0.close conn).1).drains = findEntry k st0.drains :=
          findEntry_close_other st0 conn k hek
        have h := ih ((st0.close conn).1) (evs0 ++ (st0.close conn).2 ++ [Event.infoClosed conn]) hk'
        refine ⟨h.1, h.2.1, ?_⟩
        intro cd hcd
        exact h.2.2 cd (hpres.trans hcd)

theorem policy_foldl_no_info_allowed (rbac : ProxyRbacContext → Bool)
    (todo : List ProxyRbacContext) (st0 : ConnectionManager) (evs0 : List Event)
    (k : ProxyRbacContext) (hk : rbac k = true)
    (hni : Event.infoClosed k ∉ evs0) :
    Event.infoClosed k ∉ (todo.foldl (policyStep rbac) (st0, evs0)).2 := by
  induction todo generalizing st0 evs0 with
  | nil => simpa using hni
  | cons conn rest ih =>
    simp only [List.foldl_cons]
    by_cases hc : rbac conn
    · rw [show policyStep rbac (st0, evs0) conn = (st0, evs0) by simp [policyStep, hc]]
      exact ih st0 evs0 hni
    · have hne : conn ≠ k := by
        intro h
        rw [h] at hc
        exact hc hk
      rw [show policyStep rbac (st0, evs0) conn =
          ((st0.close conn).1, evs0 ++ (st0.close conn).2 ++ [Event.infoClosed conn]) by
        simp [policyStep, hc]]
      refine ih _ _ ?_
      simp only [List.mem_append, List.mem_singleton]
      push_neg
      exact ⟨⟨hni, infoClosed_not_in_close_events st0 conn k⟩, by simp [Ne.symm hne]⟩

/-- C6: in one policy-changed iteration of the policy watcher, run over the
snapshot of tracked contexts: every snapshotted context that `assert_rbac`
denies is closed before the iteration returns — its entry is gone from the
registry, its drain was awaited (the drop and await effects of its channel
are in the iteration's trace), and the informational event was emitted;
every context that `assert_rbac` allows is not closed — its entry is exactly
as before and no informational close event names it. -/
theorem C6_policy_iteration_closes_denied (rbac : ProxyRbacContext → Bool)
    (st : ConnectionManager) :
    (∀ k, k ∈ st.connections → rbac k = false →
      findEntry k (policyIteration rbac st).1.drains = none ∧
      Event.infoClosed k ∈ (policyIteration rbac st).2 ∧
      (∀ cd, findEntry k st.drains = some cd →
        Event.dropRx cd.rx ∈ (policyIteration rbac st).2 ∧
        Event.awaitSignal cd.tx ∈ (policyIteration rbac st).2)) ∧
    (∀ k, rbac k = true →
      findEntry k (policyIteration rbac st).1.drains = findEntry k st.drains ∧
      Event.infoClosed k ∉ (policyIteration rbac st).2) := by
  constructor
  · intro k hk hrb
    exact policy_foldl_denied rbac st.connections st [] k hk hrb
  · intro k hk
    exact ⟨policy_foldl_preserves_allowed rbac st.connections st [] k hk,
      policy_foldl_no_info_allowed rbac st.connections st [] k hk (by simp)⟩

/-- Witness for C6: a registry with a denied key 0 and an allowed key 1. -/
theorem C6_policy_iteration_closes_denied_witness :
    findEntry 0 (policyIteration (fun k => decide (k = 1))
        ⟨[(0, ⟨6, 6, 1⟩), (1, ⟨7, 7, 2⟩)], 8⟩).1.drains = none ∧
    Event.infoClosed 0 ∈ (policyIteration (fun k => decide (k = 1))
        ⟨[(0, ⟨6, 6, 1⟩), (1, ⟨7, 7, 2⟩)], 8⟩).2 ∧
    findEntry 1 (policyIteration (fun k => decide (k = 1))
        ⟨[(0, ⟨6, 6, 1⟩), (1, ⟨7, 7, 2⟩)], 8⟩).1.drains = some ⟨7, 7, 2⟩ ∧
    Event.infoClosed 1 ∉ (policyIteration (fun k => decide (k = 1))
        ⟨[(0, ⟨6, 6, 1⟩), (1, ⟨7, 7, 2⟩)], 8⟩).2 := by
  have h1 := (C6_policy_iteration_closes_denied (fun k => decide (k = 1))
    ⟨[(0, ⟨6, 6, 1⟩), (1, ⟨7, 7, 2⟩)], 8⟩).1 0 (by decide) (by decide)
  have h2 := (C6_policy_iteration_closes_denied (fun k => decide (k = 1))
    ⟨[(0, ⟨6, 6, 1⟩), (1, ⟨7, 7, 2⟩)], 8⟩).2 1 (by decide)
  exact ⟨h1.1, h1.2.1, by rw [h2.1]; rfl, h2.2⟩

end Ztunnel
